import Mathlib

/-!
Shallow embedding of the `sargs` command-line argument engine
(`src/sargs.h`, class `sargs::Args`): flag registry, value store,
parse state machine, post-pass validation, fallback backfill, numeric
accessors, usage-preamble generation and the description word-wrapper.
`std::map<std::string, std::string>` is modelled as a function
`String → Option String` (only `find`, `operator[]` insertion and an
existence scan are used by the source, so the tree structure and
iteration order are unobservable).
-/

namespace Sargs

/-- The value store `_arguments`: flag spelling ↦ raw textual value. -/
def Store := String → Option String

def Store.empty : Store := fun _ => none

/-- `_arguments[k] = v` (insert-or-assign, as `std::map::operator[]`). -/
def Store.insert (m : Store) (k v : String) : Store :=
  fun x => if x = k then some v else m x

/-- One declared flag (struct `Argument`): primary name, alias,
description, fallback default and whether it consumes a value. -/
structure Argument where
  flag : String
  aliasName : String
  description : String
  fallback : String
  value : Bool
deriving DecidableEq

/-- The engine state (class `Args`): registry, value store, positional
tokens and configuration toggles used by the modelled operations. -/
structure Args where
  required : List Argument := []
  optional : List Argument := []
  arguments : Store := Store.empty
  nonflags : List String := []
  binary : String := ""
  nonflagsRequired : Nat := 0
  helpEnabled : Bool := true
  exitEnabled : Bool := true
  exceptionsEnabled : Bool := true

/-- The scan of `Args::FindAlternative`: first declaration whose primary
or alias equals `flag` yields the other spelling; `""` if none.  The
source scans `_required` then `_optional`; the list argument is that
concatenation. -/
def findAlternativeIn (flag : String) : List Argument → String
  | [] => ""
  | a :: rest =>
    if a.flag = flag then a.aliasName
    else if a.aliasName = flag then a.flag
    else findAlternativeIn flag rest

/-- `Args::FindAlternative`. -/
def Args.FindAlternative (s : Args) (flag : String) : String :=
  findAlternativeIn flag (s.required ++ s.optional)

/-- `Args::Has`: the source iterates over the `_arguments` entries and
reports whether some key equals `flag` or its alternative; with the
functional store model that is exactly membership of either spelling. -/
def Args.Has (s : Args) (flag : String) : Bool :=
  let alternative := s.FindAlternative flag
  (s.arguments flag).isSome || (s.arguments alternative).isSome

/-- Registry lookup shared by `CheckIfNonValueFlag` / `CheckIfValueFlag`:
first declaration whose primary or alias equals `flag` yields its
`value` field. -/
def checkFlagIn (flag : String) : List Argument → Option Bool
  | [] => none
  | a :: rest =>
    if flag = a.flag ∨ flag = a.aliasName then some a.value
    else checkFlagIn flag rest

/-- `Args::CheckIfNonValueFlag`. -/
def Args.CheckIfNonValueFlag (s : Args) (flag : String) : Bool :=
  match checkFlagIn flag (s.required ++ s.optional) with
  | some v => !v
  | none => false

/-- `Args::CheckIfValueFlag`. -/
def Args.CheckIfValueFlag (s : Args) (flag : String) : Bool :=
  match checkFlagIn flag (s.required ++ s.optional) with
  | some v => v
  | none => false

/-- `arg.find_first_of('=')` combined with the two `substr` calls of
`Args::TryFlagValueSplit`: the characters before the first `'='` and the
characters after it, or `none` when there is no `'='`. -/
def splitAtFirstEq : List Char → Option (List Char × List Char)
  | [] => none
  | c :: rest =>
    if c = '=' then some ([], rest)
    else
      match splitAtFirstEq rest with
      | none => none
      | some pq => some (c :: pq.1, pq.2)

/-- `Args::TryFlagValueSplit`: succeeds when the token has an `'='` and
the part before it is a declared value-taking flag name. -/
def Args.TryFlagValueSplit (s : Args) (arg : String) : Option (String × String) :=
  match splitAtFirstEq arg.data with
  | none => none
  | some pq =>
    let currentFlag := String.mk pq.1
    if s.CheckIfValueFlag currentFlag then some (currentFlag, String.mk pq.2)
    else none

/-- `Args::CheckForMissing`: first declaration with neither spelling in
the store yields `"Must specify <flag-or-alias>"`. -/
def checkForMissingIn (m : Store) : List Argument → String
  | [] => ""
  | a :: rest =>
    if (m a.flag).isNone ∧ (m a.aliasName).isNone then
      if a.flag ≠ "" then "Must specify " ++ a.flag
      else "Must specify " ++ a.aliasName
    else checkForMissingIn m rest

/-- `Args::CheckForMissing` on the engine's store. -/
def Args.CheckForMissing (s : Args) (toCheck : List Argument) : String :=
  checkForMissingIn s.arguments toCheck

/-- The alias-side half of one `Args::CheckForValues` iteration: note the
source guards this branch with `!arg_iter->second.empty()`, so the inner
empty-value error is unreachable, and an empty alias value is neither
diagnosed nor copied to the primary spelling. -/
def checkForValuesAliasSide (m : Store) (a : Argument) : Option String × Store :=
  match m a.aliasName with
  | some v =>
    if v ≠ "" then
      if a.value ∧ v = "" then
        (some ("Must specify value for " ++ a.aliasName), m)
      else (none, m.insert a.flag v)
    else (none, m)
  | none => (none, m)

/-- One iteration of the `Args::CheckForValues` loop: primary branch
(requires a non-empty alias) then the alias branch. -/
def checkForValuesStep (m : Store) (a : Argument) : Option String × Store :=
  match m a.flag with
  | some v =>
    if a.aliasName ≠ "" then
      if a.value ∧ v = "" then
        (some ("Must specify value for " ++ a.flag), m)
      else (none, m.insert a.aliasName v)
    else checkForValuesAliasSide m a
  | none => checkForValuesAliasSide m a

/-- `Args::CheckForValues` over a declaration list: stops at the first
error, threading the mutated store. -/
def checkForValuesList (m : Store) : List Argument → String × Store
  | [] => ("", m)
  | a :: rest =>
    match checkForValuesStep m a with
    | (some err, m1) => (err, m1)
    | (none, m1) => checkForValuesList m1 rest

/-- `Args::CheckForValues` on the engine state. -/
def Args.CheckForValues (s : Args) (toCheck : List Argument) : String × Args :=
  let r := checkForValuesList s.arguments toCheck
  (r.1, { s with arguments := r.2 })

/-- One declaration of `Args::AddFallbackValues`: insert the non-empty
fallback under the primary if absent, then under the alias if absent
(the alias lookup sees the possibly-updated map, as in the source). -/
def addFallbackStep (m : Store) (a : Argument) : Store :=
  let m1 := if (m a.flag).isNone ∧ a.fallback ≠ "" then m.insert a.flag a.fallback else m
  if (m1 a.aliasName).isNone ∧ a.fallback ≠ "" then m1.insert a.aliasName a.fallback else m1

/-- Fold of `addFallbackStep` over a declaration list. -/
def addFallbackList (m : Store) : List Argument → Store
  | [] => m
  | a :: rest => addFallbackList (addFallbackStep m a) rest

/-- `Args::AddFallbackValues`: the source loops over `_optional` first,
then `_required`. -/
def Args.AddFallbackValues (s : Args) : Args :=
  { s with arguments := addFallbackList (addFallbackList s.arguments s.optional) s.required }

/-- The scan loop of `Args::Parse` (lines 591-635): single left-to-right
pass.  Branch order as in the source: the literal `--` test comes first,
then the positional-only test, then the three flag classifications, then
the positional default.  Returns the early-error message (if any), the
store and the positional tokens. -/
def scanLoop (s : Args) (total : Nat) :
    List String → Store → List String → Nat → Bool →
    Option String × Store × List String
  | [], m, nf, _, _ => (none, m, nf)
  | tok :: rest, m, nf, count, delim =>
    if tok = "--" then
      scanLoop s total rest m nf count true
    else if delim then
      scanLoop s total rest m (nf ++ [tok]) count delim
    else if s.CheckIfNonValueFlag tok then
      scanLoop s total rest (m.insert tok "") nf (count + 1) (decide (total ≤ count + 1))
    else if s.CheckIfValueFlag tok then
      match rest with
      | [] => (some ("Must set value for " ++ tok), m, nf)
      | v :: rest2 =>
        scanLoop s total rest2 (m.insert tok v) nf (count + 1) (decide (total ≤ count + 1))
    else
      match s.TryFlagValueSplit tok with
      | some fv =>
        scanLoop s total rest (m.insert fv.1 fv.2) nf (count + 1) (decide (total ≤ count + 1))
      | none => scanLoop s total rest m (nf ++ [tok]) count delim

/-- The positional-count check of `Args::Parse` (lines 637-640). -/
def nonflagsCheck (requiredCount : Nat) (got : Nat) : String :=
  if got ≠ requiredCount ∧ requiredCount = 0 then "Unknown arguments"
  else if got ≠ requiredCount then
    "Unknown arguments or user must specify " ++ toString requiredCount ++ " non-flags"
  else ""

/-- `Args::Parse`: scan, positional-count check, value-presence and
alias backfill over required then optional, missing-required check;
first failure wins.  Returns the diagnostic (empty on success) and the
resulting engine state. -/
def Args.Parse (s : Args) (binary : String) (tokens : List String) : String × Args :=
  let total := s.required.length + s.optional.length
  let scanned := scanLoop s total tokens s.arguments s.nonflags 0 false
  let s1 : Args := { s with binary := binary, arguments := scanned.2.1, nonflags := scanned.2.2 }
  match scanned.1 with
  | some msg => (msg, s1)
  | none =>
    let chk := nonflagsCheck s.nonflagsRequired s1.nonflags.length
    if chk ≠ "" then (chk, s1)
    else
      let r1 := s1.CheckForValues s1.required
      if r1.1 ≠ "" then r1
      else
        let r2 := r1.2.CheckForValues r1.2.optional
        if r2.1 ≠ "" then r2
        else (r2.2.CheckForMissing r2.2.required, r2.2)

/-- `Args::AddOptionalFlag`. -/
def Args.AddOptionalFlag (s : Args) (flag al description : String) : Args :=
  { s with optional := s.optional ++ [⟨flag, al, description, "", false⟩] }

/-- The help-flag registration at the top of `Args::Initialize`. -/
def Args.withHelpFlag (s : Args) : Args :=
  if s.helpEnabled then
    s.AddOptionalFlag "--help" "-h" "Print usage and options information"
  else s

/-- Outcome of `Args::Initialize`: either the process exits (with the
state at that moment) or control returns to the caller. -/
inductive InitResult
  | exited (code : Nat) (state : Args)
  | returned (state : Args)

def InitResult.isExited : InitResult → Bool
  | .exited _ _ => true
  | .returned _ => false

def InitResult.state : InitResult → Args
  | .exited _ s => s
  | .returned s => s

/-- `Args::Initialize` (usage-text printing omitted: it does not touch
the store): add the help flag, parse, maybe exit, and only past the exit
block run `AddFallbackValues`. -/
def Args.Initialize (s : Args) (binary : String) (tokens : List String) : InitResult :=
  let s0 := s.withHelpFlag
  let pr := s0.Parse binary tokens
  let result := pr.1
  let s1 := pr.2
  let helpSpecified := s1.Has "--help" || s1.Has "-h"
  let usage := (s1.helpEnabled && helpSpecified) || (result != "")
  if usage && s1.exitEnabled then
    .exited (if result = "" then 0 else 1) s1
  else
    .returned s1.AddFallbackValues

/-! ### Numeric accessors (claim C8) -/

/-- Result of a numeric accessor call: a raised `SargsError`, "flag not
found" (the two-argument form returned `false`), or a produced value. -/
inductive NumResult
  | thrown (msg : String)
  | noValue
  | val (n : Nat)
deriving DecidableEq

/-- `ULONG_MAX` on the 64-bit platforms the source targets. -/
def ULONG_MAX : Nat := 2 ^ 64 - 1

def isSpaceChar (c : Char) : Bool :=
  c = ' ' || c = '\t' || c = '\n' || c = '\r' || c = '\x0b' || c = '\x0c'

def hexDigitVal : Char → Option Nat := fun c =>
  if '0' ≤ c ∧ c ≤ '9' then some (c.toNat - '0'.toNat)
  else if 'a' ≤ c ∧ c ≤ 'f' then some (c.toNat - 'a'.toNat + 10)
  else if 'A' ≤ c ∧ c ≤ 'F' then some (c.toNat - 'A'.toNat + 10)
  else none

/-- Accumulate digits valid in `base`, stopping at the first invalid
character (as `strtoul` does). -/
def digitsValue (base : Nat) : List Char → Nat → Nat
  | [], acc => acc
  | c :: rest, acc =>
    match hexDigitVal c with
    | some d => if d < base then digitsValue base rest (acc * base + d) else acc
    | none => acc

/-- Model of C `strtoul(str, nullptr, 0)` with a fresh `errno`: skip
whitespace, optional sign, base prefix (`0x`/`0X` hex, leading `0`
octal, else decimal), digits; out-of-range yields `(ULONG_MAX, true)`,
a negative in-range value wraps modulo `2^64`. -/
def strtoulModel (sv : String) : Nat × Bool :=
  let cs0 := sv.data.dropWhile isSpaceChar
  let signed : Bool × List Char :=
    match cs0 with
    | '-' :: rest => (true, rest)
    | '+' :: rest => (false, rest)
    | _ => (false, cs0)
  let based : Nat × List Char :=
    match signed.2 with
    | '0' :: 'x' :: rest => (16, rest)
    | '0' :: 'X' :: rest => (16, rest)
    | '0' :: rest => (8, '0' :: rest)
    | cs => (10, cs)
  let raw := digitsValue based.1 based.2 0
  if raw > ULONG_MAX then (ULONG_MAX, true)
  else if signed.1 then ((2 ^ 64 - raw % 2 ^ 64) % 2 ^ 64, false)
  else (raw, false)

/-- The two-argument `Args::GetAsUInt64(flag, value)`: empty query
throws (or returns `false`), missing flag returns `false`, range error
throws (or returns `false`), otherwise produces the converted value. -/
def Args.GetAsUInt64 (s : Args) (flag : String) : NumResult :=
  if flag = "" then
    if s.exceptionsEnabled then .thrown "Flag query empty" else .noValue
  else
    match s.arguments flag with
    | none => .noValue
    | some str =>
      let r := strtoulModel str
      if r.2 then
        if s.exceptionsEnabled then
          .thrown ("Could not convert " ++ str ++ " to uint64_t")
        else .noValue
      else .val r.1

/-- `Args::GetAsUInt8`: the one-argument accessor, bounds-checking the
64-bit canonical value against `uint8_t`'s maximum (255). -/
def Args.GetAsUInt8 (s : Args) (flag : String) : NumResult :=
  match s.GetAsUInt64 flag with
  | .thrown m => .thrown m
  | .noValue =>
    if s.exceptionsEnabled then .thrown (flag ++ " was not specified") else .val 0
  | .val v =>
    if v > 255 then
      if s.exceptionsEnabled then .thrown (flag ++ " was too large for uint8_t")
      else .val 0
    else .val v

/-! ### Usage preamble (claim C9) -/

/-- The optional-flag loop of the preamble part of
`Args::GenerateUsage` (lines 728-741), threading the stream buffer. -/
def preambleOptLoop : List Argument → String → String
  | [], acc => acc
  | a :: rest, acc =>
    let acc1 := acc ++ "[" ++ a.flag
    let acc2 := if a.flag ≠ "" then (if a.value then acc1 ++ "=value" else acc1) else acc1
    let acc3 :=
      if a.aliasName ≠ "" then
        (if a.value then acc2 ++ "|" ++ a.aliasName ++ "=value"
         else acc2 ++ "|" ++ a.aliasName)
      else acc2
    preambleOptLoop rest (acc3 ++ "] ")

/-- The required-flag loop of the preamble (lines 743-753). -/
def preambleReqLoop : List Argument → String → String
  | [], acc => acc
  | a :: rest, acc =>
    let acc1 := acc ++ a.flag
    let acc2 := if a.value then acc1 ++ "=value" else acc1
    let acc3 :=
      if a.aliasName ≠ "" then
        (if a.value then acc2 ++ "|" ++ a.aliasName ++ "=value"
         else acc2 ++ "|" ++ a.aliasName)
      else acc2
    preambleReqLoop rest (acc3 ++ " ")

/-- The non-flag placeholder loop of the preamble (lines 757-759). -/
def preambleNonflagLoop : List Nat → String → String
  | [], acc => acc
  | i :: rest, acc => preambleNonflagLoop rest (acc ++ "nonflag" ++ toString (i + 1) ++ " ")

/-- The preamble half of `Args::GenerateUsage` (lines 726-763): the
string assigned to `_preamble`. -/
def Args.GenerateUsagePreamble (s : Args) : String :=
  let acc := "Usage: " ++ s.binary ++ " "
  let acc := preambleOptLoop s.optional acc
  let acc := preambleReqLoop s.required acc
  let acc :=
    if 0 < s.nonflagsRequired then
      preambleNonflagLoop (List.range s.nonflagsRequired) (acc ++ "<--> ")
    else acc
  acc ++ "\n"

/-- Concatenation of a list of strings (spec-side rendering helper). -/
def concatList : List String → String
  | [] => ""
  | sstr :: rest => sstr ++ concatList rest

/-- Modelled from the claim C9 text: an optional flag is "bracketed as
`[flag|alias=value]` (the `=value` suffix appearing only when the flag
takes a value)". -/
def claimOptPiece (a : Argument) : String :=
  "[" ++ a.flag ++ (if a.aliasName ≠ "" then "|" ++ a.aliasName else "")
      ++ (if a.value then "=value" else "") ++ "] "

/-- Modelled from the claim C9 text: a required flag is "unbracketed as
`flag|alias=value`". -/
def claimReqPiece (a : Argument) : String :=
  a.flag ++ (if a.aliasName ≠ "" then "|" ++ a.aliasName else "")
      ++ (if a.value then "=value" else "") ++ " "

/-- Modelled from the claim C9 text: the whole preamble as the claim
describes it. -/
def preambleSpecClaim (s : Args) : String :=
  "Usage: " ++ s.binary ++ " "
    ++ concatList (s.optional.map claimOptPiece)
    ++ concatList (s.required.map claimReqPiece)
    ++ (if 0 < s.nonflagsRequired then
          "<--> " ++ concatList ((List.range s.nonflagsRequired).map
            (fun i => "nonflag" ++ toString (i + 1) ++ " "))
        else "")
    ++ "\n"

/-- Amended per-optional-flag rendering: `=value` follows each spelling
(the primary only when non-empty) when the flag takes a value. -/
def specAmendedOptPiece (a : Argument) : String :=
  "[" ++ a.flag ++ (if a.flag ≠ "" ∧ a.value then "=value" else "")
      ++ (if a.aliasName ≠ "" then
            "|" ++ a.aliasName ++ (if a.value then "=value" else "")
          else "")
      ++ "] "

/-- Amended per-required-flag rendering: `=value` follows the primary
whenever the flag takes a value, and the alias when non-empty. -/
def specAmendedReqPiece (a : Argument) : String :=
  a.flag ++ (if a.value then "=value" else "")
      ++ (if a.aliasName ≠ "" then
            "|" ++ a.aliasName ++ (if a.value then "=value" else "")
          else "")
      ++ " "

/-- The preamble as the amended claim describes it. -/
def preambleSpecAmended (s : Args) : String :=
  "Usage: " ++ s.binary ++ " "
    ++ concatList (s.optional.map specAmendedOptPiece)
    ++ concatList (s.required.map specAmendedReqPiece)
    ++ (if 0 < s.nonflagsRequired then
          "<--> " ++ concatList ((List.range s.nonflagsRequired).map
            (fun i => "nonflag" ++ toString (i + 1) ++ " "))
        else "")
    ++ "\n"

/-! ### Description word-wrapping (claim C10) -/

/-- Outcome of `Args::FormatDescription` in a defined-behavior model:
a produced string, an out-of-bounds string index (undefined behavior in
the C++), or a loop that never terminates. -/
inductive FDResult
  | ok (s : String)
  | oob
  | hang
deriving DecidableEq

/-- C locale `isalpha`. -/
def isalphaChar (c : Char) : Bool :=
  ('a' ≤ c && c ≤ 'z') || ('A' ≤ c && c ≤ 'Z')

/-- C locale `isblank`. -/
def isblankChar (c : Char) : Bool :=
  c = ' ' || c = '\t'

/-- The backward scan of `Args::DetermineNumCharsToWrite`: from
`location` walk down while the character is alphabetic and the index is
positive; `none` marks an out-of-bounds read. -/
def detNumLoop (cs : List Char) : Nat → Option Nat
  | 0 =>
    match cs[0]? with
    | none => none
    | some _ => some 0
  | loc + 1 =>
    match cs[loc + 1]? with
    | none => none
    | some c => if isalphaChar c then detNumLoop cs loc else some (loc + 1)

/-- `Args::DetermineNumCharsToWrite` on the window `description.substr(count)`:
width 0 models the `size_t` underflow of `_desc_width - 1` (an
out-of-bounds scan start). -/
def DetermineNumCharsToWrite (w : Nat) (window : List Char) : Option Nat :=
  if w = 0 then none
  else
    match detNumLoop window (w - 1) with
    | none => none
    | some loc =>
      if loc = 0 then
        match window[0]? with
        | none => none
        | some c => if isalphaChar c then some w else some (loc + 1)
      else some (loc + 1)

/-- The inner blank-skipping loop of the main `FormatDescription` loop:
`while (isblank(description[count + skip]) && skip < width) ++skip;`,
walking the window starting at `count`; `none` marks an out-of-bounds
read. -/
def skipCount (w : Nat) : List Char → Nat → Option Nat
  | [], _ => none
  | c :: rest, skip =>
    if isblankChar c ∧ skip < w then skipCount w rest (skip + 1) else some skip

/-- The final block of `Args::FormatDescription` (lines 678-685):
`while (isblank(description[count]) && count < width) ++skip;` does not
change its own condition, so it either runs zero times or forever;
`description[count]` at `count == size` reads the defined `'\0'`,
beyond that it is out of bounds. -/
def finalBlock (desc : List Char) (w count : Nat) (acc : List Char) : FDResult :=
  match (if count = desc.length then some '\x00' else desc[count]?) with
  | none => .oob
  | some c =>
    if isblankChar c ∧ count < w then .hang
    else if (0 : Nat) ≠ w then .ok (String.mk (acc ++ desc.drop count))
    else .ok (String.mk acc)

/-- The main loop of `Args::FormatDescription` (lines 661-676): the
fuel only bounds the iteration count (exhaustion is reported as a
non-terminating loop; the no-hang theorem shows the initial fuel
`desc.length + 1` is never exhausted).  `to_write` is computed from the
window at `count` before the blanks are skipped, exactly as in the
source. -/
def fdLoop (desc : List Char) (w start : Nat) (fuel count : Nat) (acc : List Char) : FDResult :=
  if count < desc.length - w then
    match fuel with
    | 0 => .hang
    | fuel1 + 1 =>
      match DetermineNumCharsToWrite w (desc.drop count) with
      | none => .oob
      | some toWrite =>
        match skipCount w (desc.drop count) 0 with
        | none => .oob
        | some skip =>
          if skip = w then fdLoop desc w start fuel1 (count + skip) acc
          else
            fdLoop desc w start fuel1 (count + skip + toWrite)
              (acc ++ (desc.drop (count + skip)).take toWrite
                   ++ '\n' :: List.replicate start ' ')
  else finalBlock desc w count acc

/-- `Args::FormatDescription` with wrap width `w` and start column
`start`. -/
def FormatDescription (w start : Nat) (description : String) : FDResult :=
  if description.length ≤ w then .ok description
  else fdLoop description.data w start (description.data.length + 1) 0 []

/-! ### Concrete engine states used by the evaluation theorems -/

/-- An optional value-taking flag `--x` with alias `-x` and fallback
`"def"`. -/
def cbArgs : Args := { optional := [⟨"--x", "-x", "d", "def", true⟩] }

/-- An engine with no declarations at all. -/
def plainArgs : Args := {}

/-- A required valueless flag `--r` and the `--x`/`-x` fallback flag,
with built-in help and process exit disabled. -/
def c3Args : Args :=
  { required := [⟨"--r", "", "", "", false⟩],
    optional := [⟨"--x", "-x", "", "def", true⟩],
    helpEnabled := false, exitEnabled := false }

/-- As `c3Args` but with the default toggles (help and exit enabled). -/
def c3ExitArgs : Args :=
  { required := [⟨"--r", "", "", "", false⟩],
    optional := [⟨"--x", "-x", "", "def", true⟩] }

/-- A value-taking flag whose primary name is the literal `--`. -/
def c5DashArgs : Args := { optional := [⟨"--", "", "", "", true⟩] }

/-- An ordinary value-taking flag `-f`. -/
def c5FArgs : Args := { optional := [⟨"-f", "", "", "", true⟩] }

/-- Two required valueless flags `--a` and `--b`. -/
def c7Args : Args :=
  { required := [⟨"--a", "", "", "", false⟩, ⟨"--b", "", "", "", false⟩] }

/-- One required valueless flag `--r`. -/
def c7RArgs : Args := { required := [⟨"--r", "", "", "", false⟩] }

/-- A store holding `--n ↦ "300"` (exceptions enabled). -/
def c8Args : Args := { arguments := Store.empty.insert "--n" "300" }

/-- A store holding `--n ↦ "255"` (exceptions disabled). -/
def c8bArgs : Args :=
  { arguments := Store.empty.insert "--n" "255", exceptionsEnabled := false }

/-- An optional value-taking flag `--x`/`-x` with binary name `prog`. -/
def c9Args : Args := { optional := [⟨"--x", "-x", "", "", true⟩], binary := "prog" }

/-- A 60-character description: 49 blanks, a period, ten letters. -/
def c10Desc : List Char := List.replicate 49 ' ' ++ '.' :: List.replicate 10 'a'

end Sargs

/-! ## Theorems -/

namespace Sargs

/-- C1: code evaluation at the failing input.  With the declared
optional value flag `--x` (alias `-x`, fallback `"def"`), parsing the
single token `-x=` succeeds (empty diagnostic) and, after the fallback
backfill that follows a successful parse, `Has` agrees on the two
spellings but the value stored under `--x` is `"def"` while the value
stored under `-x` is `""` — the equal-stored-values half of the claimed
alias-backfill invariant fails on the code (the alias branch of
`CheckForValues` skips empty stored values, so the fallback fills only
the primary spelling). -/
theorem c1_code_eval :
    (cbArgs.Parse "prog" ["-x="]).1 = "" ∧
    ((cbArgs.Parse "prog" ["-x="]).2.AddFallbackValues).Has "--x" = true ∧
    ((cbArgs.Parse "prog" ["-x="]).2.AddFallbackValues).Has "-x" = true ∧
    ((cbArgs.Parse "prog" ["-x="]).2.AddFallbackValues).arguments "--x" = some "def" ∧
    ((cbArgs.Parse "prog" ["-x="]).2.AddFallbackValues).arguments "-x" = some "" := by
  decide

/-- C4: code evaluation at the failing input.  The declaration `--x`/`-x`
takes a value, the token `-x=` leaves the alias spelling present with an
empty stored value, yet `Parse` returns the empty diagnostic: the
"Must specify value for" check never fires for a value reachable only
through the alias spelling, because the alias branch of `CheckForValues`
is guarded by the stored value being non-empty (its inner empty-value
error is dead code). -/
theorem c4_code_eval :
    (cbArgs.Parse "prog" ["-x="]).1 = "" ∧
    (cbArgs.Parse "prog" ["-x="]).2.arguments "-x" = some "" ∧
    cbArgs.optional = [⟨"--x", "-x", "d", "def", true⟩] := by
  decide

/-- C2 counterexample: with no declarations, the input `-- --` makes the
first `--` enter positional-only mode, and the second `--` — a
subsequent token of that mode — is not appended to the positional
sequence (the delimiter test precedes the positional-mode test), so the
claim's "every subsequent token is appended" fails: the positional
sequence ends up empty rather than `["--"]`. -/
theorem c2_counterexample :
    (plainArgs.Parse "prog" ["--", "--"]).1 = "" ∧
    (plainArgs.Parse "prog" ["--", "--"]).2.nonflags = [] ∧
    (plainArgs.Parse "prog" ["--", "--"]).2.nonflags ≠ ["--"] := by
  decide

/-- C3 counterexample: with process exit disabled, a parse that fails
(missing required `--r`, non-empty diagnostic) still reaches
`AddFallbackValues`: `Initialize` returns (does not exit) and the
returned store holds the fallback `"def"` under both spellings of the
absent `--x`/`-x` — refuting "no fallback is inserted when the parse
fails". -/
theorem c3_counterexample :
    (c3Args.withHelpFlag.Parse "prog" []).1 ≠ "" ∧
    (c3Args.Initialize "prog" []).isExited = false ∧
    (c3Args.Initialize "prog" []).state.arguments "--x" = some "def" ∧
    (c3Args.Initialize "prog" []).state.arguments "-x" = some "def" := by
  decide

/-- C5 counterexample: for the declared value-taking flag whose name is
the literal `--`, the token `--=x` stores `"x"` for it, while the
two-token form `--`, `x` is swallowed by the positional-only delimiter
and stores nothing — the two supply forms do not yield an identical
stored value for every declared value flag. -/
theorem c5_counterexample :
    (c5DashArgs.Parse "prog" ["--=x"]).2.arguments "--" = some "x" ∧
    (c5DashArgs.Parse "prog" ["--", "x"]).2.arguments "--" = none ∧
    (c5DashArgs.Parse "prog" ["--=x"]).2.arguments "--" ≠
      (c5DashArgs.Parse "prog" ["--", "x"]).2.arguments "--" := by
  decide

/-- C7 counterexample: with the two required flags `--a` and `--b` both
entirely absent, the parse diagnostic is `"Must specify --a"`; the claim
instantiated at the declaration `--b` — also absent — asserts a
diagnostic of the form `"Must specify --b"`, which the parse does not
return (validation short-circuits at the first missing declaration). -/
theorem c7_counterexample :
    (c7Args.Parse "prog" []).1 = "Must specify --a" ∧
    (c7Args.Parse "prog" []).1 ≠ "Must specify --b" ∧
    (c7Args.Parse "prog" []).2.arguments "--b" = none := by
  decide

/-- C9 counterexample: for the optional value flag `--x`/`-x` the code
brackets it as `[--x=value|-x=value]` — the `=value` suffix follows each
spelling — whereas the claim's schema `[flag|alias=value]` places
`=value` only after the alias, so the generated preamble differs from
the claim's rendering. -/
theorem c9_counterexample :
    c9Args.GenerateUsagePreamble = "Usage: prog [--x=value|-x=value] \n" ∧
    preambleSpecClaim c9Args = "Usage: prog [--x|-x=value] \n" ∧
    c9Args.GenerateUsagePreamble ≠ preambleSpecClaim c9Args := by
  decide

/-- C10 counterexample: the routine does not return a string for every
description and wrap width.  At width 50, the 60-character description
of 49 blanks, a period and ten letters drives the final blank-test to
read `description[99]` — past the end of the string (undefined
behavior, `FDResult.oob`); and at width 0 the `_desc_width - 1` index
computation underflows. -/
theorem c10_counterexample :
    FormatDescription 50 30 (String.mk c10Desc) = FDResult.oob ∧
    FormatDescription 0 30 "ab" = FDResult.oob := by
  decide

end Sargs

namespace Sargs

theorem strAppendLeftNeEmpty (a b : String) (h : a ≠ "") : a ++ b ≠ "" := by
  intro hab
  apply h
  apply String.ext
  have hd := congrArg String.data hab
  rw [String.data_append] at hd
  exact (List.append_eq_nil.mp hd).1

/-- C2 (amended): once the scanner is in positional-only mode
(`delim = true`) it never leaves it: the remaining pass touches neither
the value store nor the flag counter, never fails, and appends every
remaining token to the positional sequence EXCEPT the literal `--`,
which is always swallowed by the delimiter test (which precedes the
positional-mode test in the source). -/
theorem c2_amended (s : Args) (total : Nat) (ts : List String) (m : Store)
    (nf : List String) (c : Nat) :
    scanLoop s total ts m nf c true =
      (none, m, nf ++ ts.filter (fun t => !(t == "--"))) := by
  induction ts generalizing nf with
  | nil => rw [scanLoop.eq_def]; simp
  | cons tok rest ih =>
    rw [scanLoop.eq_def]
    by_cases h : tok = "--"
    · simp [h, ih]
    · simp [h, ih, List.filter_cons]

/-- C6: the positional-count check.  For a declared count `N > 0` it
passes exactly when the collected count equals `N`, and otherwise
produces the diagnostic `"Unknown arguments or user must specify N
non-flags"`; for `N = 0` with at least one positional token it produces
`"Unknown arguments"`; and when the scan completes and the check fails,
`Parse` returns exactly this check's diagnostic. -/
theorem c6_nonflags_check :
    (∀ N c : Nat, 0 < N → (nonflagsCheck N c = "" ↔ c = N)) ∧
    (∀ N c : Nat, 0 < N → c ≠ N →
      nonflagsCheck N c =
        "Unknown arguments or user must specify " ++ toString N ++ " non-flags") ∧
    (∀ c : Nat, 0 < c → nonflagsCheck 0 c = "Unknown arguments") ∧
    (∀ (s : Args) (b : String) (toks : List String),
      (scanLoop s (s.required.length + s.optional.length) toks s.arguments s.nonflags 0 false).1
          = none →
      nonflagsCheck s.nonflagsRequired
        (scanLoop s (s.required.length + s.optional.length) toks
          s.arguments s.nonflags 0 false).2.2.length ≠ "" →
      (s.Parse b toks).1 =
        nonflagsCheck s.nonflagsRequired
          (scanLoop s (s.required.length + s.optional.length) toks
            s.arguments s.nonflags 0 false).2.2.length) := by
  have hmsg : ∀ N : Nat,
      ("Unknown arguments or user must specify " ++ toString N ++ " non-flags") ≠ "" := by
    intro N
    exact strAppendLeftNeEmpty _ _ (strAppendLeftNeEmpty _ _ (by decide))
  refine ⟨?_, ?_, ?_, ?_⟩
  · intro N c hN
    constructor
    · intro h
      by_contra hne
      rw [nonflagsCheck] at h
      simp [hne, Nat.pos_iff_ne_zero.mp hN] at h
      exact hmsg N h
    · intro h; subst h; simp [nonflagsCheck]
  · intro N c hN hne
    rw [nonflagsCheck]
    simp [hne, Nat.pos_iff_ne_zero.mp hN]
  · intro c hc
    rw [nonflagsCheck]
    simp [Nat.pos_iff_ne_zero.mp hc]
  · intro s b toks h1 h2
    rcases hL : scanLoop s (s.required.length + s.optional.length) toks
        s.arguments s.nonflags 0 false with ⟨e, m0, nf⟩
    rw [hL] at h1 h2
    simp only at h1 h2
    subst h1
    simp only [Args.Parse, hL]
    simp [h2]


/-- Witness for C6 at `N = 2` with 2, 1 and (for `N = 0`) 1 positional
tokens. -/
theorem c6_witness :
    nonflagsCheck 2 2 = "" ∧
    nonflagsCheck 2 1 = "Unknown arguments or user must specify " ++ toString 2 ++ " non-flags" ∧
    nonflagsCheck 0 1 = "Unknown arguments" :=
  ⟨(c6_nonflags_check.1 2 2 (by decide)).mpr rfl,
   c6_nonflags_check.2.1 2 1 (by decide) (by decide),
   c6_nonflags_check.2.2.1 1 (by decide)⟩

/-- C8: for a stored value `"300"`, the 8-bit unsigned accessor fails —
a `SargsError` "too large for uint8_t" when exceptions are enabled, the
zero sentinel when disabled; for a stored value `"255"` it succeeds and
returns 255 in either mode. -/
theorem c8_uint8_accessor :
    (∀ (s : Args) (f : String), f ≠ "" → s.arguments f = some "300" →
      s.GetAsUInt8 f =
        (if s.exceptionsEnabled then NumResult.thrown (f ++ " was too large for uint8_t")
         else NumResult.val 0)) ∧
    (∀ (s : Args) (f : String), f ≠ "" → s.arguments f = some "255" →
      s.GetAsUInt8 f = NumResult.val 255) := by
  have h300 : strtoulModel "300" = (300, false) := by decide
  have h255 : strtoulModel "255" = (255, false) := by decide
  constructor
  · intro s f hf hv
    rw [Args.GetAsUInt8, Args.GetAsUInt64]
    simp only [hf, if_neg, hv, h300]
    cases hE : s.exceptionsEnabled <;> simp
  · intro s f hf hv
    rw [Args.GetAsUInt8, Args.GetAsUInt64]
    simp only [hf, if_neg, hv, h255]
    simp

/-- Witness for C8 on concrete stores holding `"300"` (exceptions
enabled) and `"255"` (exceptions disabled). -/
theorem c8_witness :
    c8Args.GetAsUInt8 "--n" = NumResult.thrown "--n was too large for uint8_t" ∧
    c8bArgs.GetAsUInt8 "--n" = NumResult.val 255 := by
  constructor
  · have h := c8_uint8_accessor.1 c8Args "--n" (by decide) (by decide)
    simpa using h
  · exact c8_uint8_accessor.2 c8bArgs "--n" (by decide) (by decide)


theorem preambleOptLoop_join (l : List Argument) :
    ∀ acc : String, preambleOptLoop l acc = acc ++ concatList (l.map specAmendedOptPiece) := by
  induction l with
  | nil => intro acc; simp [preambleOptLoop, concatList, String.append_empty]
  | cons a rest ih =>
    intro acc
    rw [preambleOptLoop]
    simp only [List.map_cons, concatList, ih, specAmendedOptPiece]
    split_ifs <;>
      first
        | tauto
        | simp only [String.append_assoc, String.append_empty, String.empty_append]

theorem preambleReqLoop_join (l : List Argument) :
    ∀ acc : String, preambleReqLoop l acc = acc ++ concatList (l.map specAmendedReqPiece) := by
  induction l with
  | nil => intro acc; simp [preambleReqLoop, concatList, String.append_empty]
  | cons a rest ih =>
    intro acc
    rw [preambleReqLoop]
    simp only [List.map_cons, concatList, ih, specAmendedReqPiece]
    split_ifs <;>
      first
        | tauto
        | simp only [String.append_assoc, String.append_empty, String.empty_append]

theorem preambleNonflagLoop_join (l : List Nat) :
    ∀ acc : String,
      preambleNonflagLoop l acc =
        acc ++ concatList (l.map (fun i => "nonflag" ++ toString (i + 1) ++ " ")) := by
  induction l with
  | nil => intro acc; simp [preambleNonflagLoop, concatList, String.append_empty]
  | cons i rest ih =>
    intro acc
    rw [preambleNonflagLoop]
    simp [ih, concatList, String.append_assoc]

/-- C9 (amended): the generated preamble is one `\n`-terminated line:
`Usage: <binary> `, then each optional flag bracketed as
`[flag=value|alias=value]` (`=value` after the primary only when the
primary is non-empty and the flag takes a value, and after the alias
whenever the alias is non-empty and the flag takes a value), then each
required flag unbracketed as `flag=value|alias=value` (`=value` after
the primary whenever the flag takes a value), each piece followed by a
space, then — only when a positional count `N > 0` is declared — a
`<--> ` separator followed by `nonflag1 ` … `nonflagN `. -/
theorem c9_amended (s : Args) : s.GenerateUsagePreamble = preambleSpecAmended s := by
  rw [Args.GenerateUsagePreamble, preambleSpecAmended]
  simp only [preambleOptLoop_join, preambleReqLoop_join]
  by_cases h : 0 < s.nonflagsRequired
  · simp [h, preambleNonflagLoop_join, String.append_assoc]
  · simp [h, String.append_assoc, String.append_empty]


theorem store_insert_ne (m : Store) (kk v k : String) (h : k ≠ kk) :
    Store.insert m kk v k = m k := by
  rw [Store.insert]; exact if_neg h

theorem store_insert_self (m : Store) (kk v : String) :
    Store.insert m kk v kk = some v := by
  rw [Store.insert]; exact if_pos rfl

theorem withHelpFlag_exitEnabled (s : Args) : s.withHelpFlag.exitEnabled = s.exitEnabled := by
  unfold Args.withHelpFlag Args.AddOptionalFlag
  split <;> rfl

theorem Parse_exitEnabled (s : Args) (b : String) (toks : List String) :
    ((s.Parse b toks).2).exitEnabled = s.exitEnabled := by
  unfold Args.Parse Args.CheckForValues Args.CheckForMissing
  dsimp only
  repeat first | rfl | split

theorem addFallbackStep_present (m : Store) (a : Argument) (k : String)
    (h : (m k).isSome = true) : addFallbackStep m a k = m k := by
  rw [addFallbackStep]
  by_cases h1 : (m a.flag).isNone = true ∧ a.fallback ≠ ""
  · have hkf : k ≠ a.flag := by
      intro he
      rw [← he, Option.isNone_iff_eq_none] at h1
      rw [h1.1] at h
      simp at h
    rw [if_pos h1]
    have e1 : Store.insert m a.flag a.fallback k = m k := store_insert_ne _ _ _ _ hkf
    by_cases h2 : ((Store.insert m a.flag a.fallback) a.aliasName).isNone = true ∧ a.fallback ≠ ""
    · have hka : k ≠ a.aliasName := by
        intro he
        rw [← he, Option.isNone_iff_eq_none] at h2
        rw [h2.1] at e1
        rw [← e1] at h
        simp at h
      rw [if_pos h2, store_insert_ne _ _ _ _ hka, e1]
    · rw [if_neg h2, e1]
  · rw [if_neg h1]
    by_cases h2 : (m a.aliasName).isNone = true ∧ a.fallback ≠ ""
    · have hka : k ≠ a.aliasName := by
        intro he
        rw [← he, Option.isNone_iff_eq_none] at h2
        rw [h2.1] at h
        simp at h
      rw [if_pos h2, store_insert_ne _ _ _ _ hka]
    · rw [if_neg h2]

theorem addFallbackList_present (l : List Argument) :
    ∀ (m : Store) (k : String), (m k).isSome = true → addFallbackList m l k = m k := by
  induction l with
  | nil => intro m k _; rfl
  | cons a rest ih =>
    intro m k h
    rw [addFallbackList]
    have hstep := addFallbackStep_present m a k h
    rw [ih (addFallbackStep m a) k (by rw [hstep]; exact h), hstep]

theorem addFallbackStep_isSome_flag (m : Store) (a : Argument) (hfb : a.fallback ≠ "") :
    ((addFallbackStep m a) a.flag).isSome = true := by
  rw [addFallbackStep]
  by_cases h1 : (m a.flag).isNone = true ∧ a.fallback ≠ ""
  · rw [if_pos h1]
    have e1 : Store.insert m a.flag a.fallback a.flag = some a.fallback :=
      store_insert_self _ _ _
    by_cases h2 : ((Store.insert m a.flag a.fallback) a.aliasName).isNone = true ∧ a.fallback ≠ ""
    · rw [if_pos h2]
      by_cases he : a.flag = a.aliasName
      · rw [he, store_insert_self]; rfl
      · rw [store_insert_ne _ _ _ _ he, e1]; rfl
    · rw [if_neg h2, e1]; rfl
  · have hs : (m a.flag).isSome = true := by
      cases ho : m a.flag with
      | none => exact absurd ⟨by rw [ho]; rfl, hfb⟩ h1
      | some v => rfl
    rw [if_neg h1]
    by_cases h2 : (m a.aliasName).isNone = true ∧ a.fallback ≠ ""
    · rw [if_pos h2]
      by_cases he : a.flag = a.aliasName
      · rw [he, store_insert_self]; rfl
      · rw [store_insert_ne _ _ _ _ he]; exact hs
    · rw [if_neg h2]; exact hs

theorem addFallbackStep_isSome_alias (m : Store) (a : Argument) (hfb : a.fallback ≠ "") :
    ((addFallbackStep m a) a.aliasName).isSome = true := by
  rw [addFallbackStep]
  by_cases h1 : (m a.flag).isNone = true ∧ a.fallback ≠ ""
  · rw [if_pos h1]
    by_cases h2 : ((Store.insert m a.flag a.fallback) a.aliasName).isNone = true ∧ a.fallback ≠ ""
    · rw [if_pos h2, store_insert_self]; rfl
    · rw [if_neg h2]
      cases ho : (Store.insert m a.flag a.fallback) a.aliasName with
      | none => exact absurd ⟨by rw [ho]; rfl, hfb⟩ h2
      | some v => rfl
  · rw [if_neg h1]
    by_cases h2 : (m a.aliasName).isNone = true ∧ a.fallback ≠ ""
    · rw [if_pos h2, store_insert_self]; rfl
    · rw [if_neg h2]
      cases ho : m a.aliasName with
      | none => exact absurd ⟨by rw [ho]; rfl, hfb⟩ h2
      | some v => rfl

theorem addFallbackList_isSome_mono (l : List Argument) (m : Store) (k : String)
    (h : (m k).isSome = true) : ((addFallbackList m l) k).isSome = true := by
  rw [addFallbackList_present l m k h]; exact h

theorem addFallbackList_isSome_of_mem (l : List Argument) :
    ∀ (m : Store) (d : Argument), d ∈ l → d.fallback ≠ "" →
      ((addFallbackList m l) d.flag).isSome = true ∧
      ((addFallbackList m l) d.aliasName).isSome = true := by
  induction l with
  | nil => intro m d h; cases h
  | cons a rest ih =>
    intro m d hmem hfb
    rw [addFallbackList]
    rcases List.mem_cons.mp hmem with he | hm
    · subst he
      exact ⟨addFallbackList_isSome_mono rest _ _ (addFallbackStep_isSome_flag m d hfb),
             addFallbackList_isSome_mono rest _ _ (addFallbackStep_isSome_alias m d hfb)⟩
    · exact ih _ d hm hfb


/-- C3 (amended): default-value backfill runs exactly when `Initialize`
does not exit the process.  (1) With exit enabled, a failed parse exits
with code 1 carrying the state exactly as `Parse` left it — no fallback
inserted; (2) whenever `Initialize` returns, the store is the parse
store with `AddFallbackValues` applied — even after a failed parse when
exit is disabled; (3) backfill never overwrites a present key; (4) for
every declared flag with a non-empty fallback, both spellings are
present after backfill. -/
theorem c3_amended :
    (∀ (s : Args) (b : String) (toks : List String),
      s.exitEnabled = true → (s.withHelpFlag.Parse b toks).1 ≠ "" →
      s.Initialize b toks = .exited 1 (s.withHelpFlag.Parse b toks).2) ∧
    (∀ (s : Args) (b : String) (toks : List String) (st : Args),
      s.Initialize b toks = .returned st →
      st.arguments = ((s.withHelpFlag.Parse b toks).2.AddFallbackValues).arguments) ∧
    (∀ (s : Args) (k : String), (s.arguments k).isSome = true →
      (s.AddFallbackValues).arguments k = s.arguments k) ∧
    (∀ (s : Args) (d : Argument), (d ∈ s.optional ∨ d ∈ s.required) → d.fallback ≠ "" →
      ((s.AddFallbackValues).arguments d.flag).isSome = true ∧
      ((s.AddFallbackValues).arguments d.aliasName).isSome = true) := by
  refine ⟨?_, ?_, ?_, ?_⟩
  · intro s b toks h1 h2
    rw [Args.Initialize]
    have hb : ((s.withHelpFlag.Parse b toks).1 != "") = true := bne_iff_ne.mpr h2
    rw [hb, Bool.or_true, Bool.true_and, Parse_exitEnabled, withHelpFlag_exitEnabled, h1,
      if_pos rfl, if_neg h2]
  · intro s b toks st h
    rw [Args.Initialize] at h
    split at h
    · exact absurd h (by simp)
    · rw [← (InitResult.returned.injEq _ _).mp h]
  · intro s k h
    have h1 : ((addFallbackList s.arguments s.optional) k).isSome = true :=
      addFallbackList_isSome_mono _ _ _ h
    show addFallbackList (addFallbackList s.arguments s.optional) s.required k = s.arguments k
    rw [addFallbackList_present s.required _ k h1, addFallbackList_present s.optional _ k h]
  · intro s d hmem hfb
    show (addFallbackList (addFallbackList s.arguments s.optional) s.required d.flag).isSome
           = true ∧
         (addFallbackList (addFallbackList s.arguments s.optional) s.required d.aliasName).isSome
           = true
    rcases hmem with hopt | hreq
    · have h1 := addFallbackList_isSome_of_mem s.optional s.arguments d hopt hfb
      exact ⟨addFallbackList_isSome_mono _ _ _ h1.1, addFallbackList_isSome_mono _ _ _ h1.2⟩
    · exact addFallbackList_isSome_of_mem s.required _ d hreq hfb

/-- Witness for C3 (amended): with exit enabled and required `--r`
missing, `Initialize` exits with code 1 and the un-backfilled parse
state. -/
theorem c3_witness :
    c3ExitArgs.Initialize "prog" [] = .exited 1 (c3ExitArgs.withHelpFlag.Parse "prog" []).2 :=
  c3_amended.1 c3ExitArgs "prog" [] rfl (by decide)


theorem strMkData (s : String) : String.mk s.data = s := rfl

theorem splitAtFirstEq_append (l1 l2 : List Char) (h : '=' ∉ l1) :
    splitAtFirstEq (l1 ++ '=' :: l2) = some (l1, l2) := by
  induction l1 with
  | nil => rw [List.nil_append, splitAtFirstEq]; simp
  | cons c rest ih =>
    have hc : ¬(c = '=') := fun he => h (he ▸ List.mem_cons_self c rest)
    have hrest : '=' ∉ rest := fun hm => h (List.mem_cons_of_mem c hm)
    rw [List.cons_append, splitAtFirstEq]
    simp [hc, ih hrest]

theorem CheckIfValueFlag_nonvalue (s : Args) (f : String)
    (h : s.CheckIfValueFlag f = true) : s.CheckIfNonValueFlag f = false := by
  rw [Args.CheckIfValueFlag] at h
  rw [Args.CheckIfNonValueFlag]
  cases hc : checkFlagIn f (s.required ++ s.optional) with
  | none => rw [hc] at h
  | some b => rw [hc] at h; simp at h; simp [h]

/-- C5 (amended): for a declared value-taking flag `f` that is not the
literal `--`, contains no `=`, and where the combined token `f=v` is
not itself a declared flag name, parsing the single token `f=v` and the
two tokens `f`, `v` produce identical `Parse` results, and the scan
stores exactly `v` for `f`. -/
theorem c5_amended (s : Args) (b f v : String)
    (hval : s.CheckIfValueFlag f = true)
    (hdash : f ≠ "--")
    (heq : '=' ∉ f.data)
    (h1 : s.CheckIfNonValueFlag (f ++ "=" ++ v) = false)
    (h2 : s.CheckIfValueFlag (f ++ "=" ++ v) = false) :
    s.Parse b [f ++ "=" ++ v] = s.Parse b [f, v] ∧
    (scanLoop s (s.required.length + s.optional.length) [f ++ "=" ++ v]
        s.arguments s.nonflags 0 false).2.1 f = some v := by
  have hnil : ∀ (m : Store) (nf : List String) (c : Nat) (d : Bool),
      scanLoop s (s.required.length + s.optional.length) [] m nf c d = (none, m, nf) := by
    intro m nf c d; rw [scanLoop.eq_def]
  have hdata : (f ++ "=" ++ v).data = f.data ++ '=' :: v.data := by
    rw [String.data_append, String.data_append]
    simp
  have htok : ¬((f ++ "=" ++ v) = "--") := by
    intro he
    have hm : '=' ∈ (f ++ "=" ++ v).data := by
      rw [hdata]; exact List.mem_append_right _ (List.mem_cons_self _ _)
    rw [he] at hm
    simp at hm
  have hsplit : s.TryFlagValueSplit (f ++ "=" ++ v) = some (f, v) := by
    rw [Args.TryFlagValueSplit, hdata, splitAtFirstEq_append f.data v.data heq]
    simp only [strMkData, hval, if_pos]
  have hscan1 : scanLoop s (s.required.length + s.optional.length) [f ++ "=" ++ v]
      s.arguments s.nonflags 0 false
      = (none, s.arguments.insert f v, s.nonflags) := by
    rw [scanLoop.eq_def]
    simp [htok, h1, h2, hsplit, hnil]
  have hnv : s.CheckIfNonValueFlag f = false := CheckIfValueFlag_nonvalue s f hval
  have hscan2 : scanLoop s (s.required.length + s.optional.length) [f, v]
      s.arguments s.nonflags 0 false
      = (none, s.arguments.insert f v, s.nonflags) := by
    rw [scanLoop.eq_def]
    simp [hdash, hnv, hval, hnil]
  constructor
  · simp only [Args.Parse, hscan1, hscan2]
  · rw [hscan1]
    exact store_insert_self s.arguments f v

/-- Witness for C5 (amended) at the declared value flag `-f` with value
`x`. -/
theorem c5_witness :
    c5FArgs.Parse "prog" ["-f" ++ "=" ++ "x"] = c5FArgs.Parse "prog" ["-f", "x"] ∧
    (scanLoop c5FArgs (c5FArgs.required.length + c5FArgs.optional.length) ["-f" ++ "=" ++ "x"]
        c5FArgs.arguments c5FArgs.nonflags 0 false).2.1 "-f" = some "x" :=
  c5_amended c5FArgs "prog" "-f" "x" (by decide) (by decide) (by decide) (by decide) (by decide)


theorem scanLoop_err_ne (s : Args) (total : Nat) :
    ∀ (n : Nat) (ts : List String), ts.length ≤ n →
      ∀ (m : Store) (nf : List String) (c : Nat) (d : Bool) (msg : String)
        (m1 : Store) (nf1 : List String),
        scanLoop s total ts m nf c d = (some msg, m1, nf1) → msg ≠ "" := by
  intro n
  induction n with
  | zero =>
    intro ts hlen m nf c d msg m1 nf1 h
    rw [List.length_eq_zero.mp (Nat.le_zero.mp hlen)] at h
    rw [scanLoop.eq_def] at h
    simp at h
  | succ n ih =>
    intro ts hlen m nf c d msg m1 nf1 h
    cases ts with
    | nil => rw [scanLoop.eq_def] at h; simp at h
    | cons tok rest =>
      have hrest : rest.length ≤ n := by
        simp only [List.length_cons] at hlen; omega
      rw [scanLoop.eq_def] at h
      dsimp only at h
      split_ifs at h with h1 h2 h3 h4
      · exact ih rest hrest _ _ _ _ _ _ _ h
      · exact ih rest hrest _ _ _ _ _ _ _ h
      · exact ih rest hrest _ _ _ _ _ _ _ h
      · cases rest with
        | nil =>
          simp only [Prod.mk.injEq] at h
          rw [← (Option.some.injEq _ _).mp h.1]
          exact strAppendLeftNeEmpty _ _ (by decide)
        | cons v rest2 =>
          have hrest2 : rest2.length ≤ n := by
            simp only [List.length_cons] at hlen; omega
          exact ih rest2 hrest2 _ _ _ _ _ _ _ h
      · cases hsp : s.TryFlagValueSplit tok with
        | some fv => rw [hsp] at h; exact ih rest hrest _ _ _ _ _ _ _ h
        | none => rw [hsp] at h; exact ih rest hrest _ _ _ _ _ _ _ h

theorem scanLoop_err (s : Args) (total : Nat) (ts : List String) (m : Store)
    (nf : List String) (c : Nat) (d : Bool) (msg : String) (m1 : Store) (nf1 : List String)
    (h : scanLoop s total ts m nf c d = (some msg, m1, nf1)) : msg ≠ "" :=
  scanLoop_err_ne s total ts.length ts (Nat.le_refl _) m nf c d msg m1 nf1 h

theorem cfvStep_write (m : Store) (a : Argument) (k : String)
    (h1 : k ≠ a.flag) (h2 : k ≠ a.aliasName) : (checkForValuesStep m a).2 k = m k := by
  have haux : (checkForValuesAliasSide m a).2 k = m k := by
    rw [checkForValuesAliasSide]
    cases m a.aliasName with
    | none => rfl
    | some v =>
      dsimp only
      split_ifs with hv hav
      · rfl
      · exact store_insert_ne _ _ _ _ h1
      · rfl
  rw [checkForValuesStep]
  cases hm : m a.flag with
  | none => exact haux
  | some v =>
    dsimp only
    split_ifs with hal hve
    · rfl
    · exact store_insert_ne _ _ _ _ h2
    · exact haux

theorem cfvStep_absent (m : Store) (a : Argument)
    (hf : m a.flag = none) (ha : m a.aliasName = none) :
    checkForValuesStep m a = (none, m) := by
  simp only [checkForValuesStep, hf, checkForValuesAliasSide, ha]

theorem cfvList_preserve (d : Argument) :
    ∀ (l : List Argument) (m : Store),
      (∀ e ∈ l,
        (e.flag ≠ d.flag ∧ e.flag ≠ d.aliasName ∧
         e.aliasName ≠ d.flag ∧ e.aliasName ≠ d.aliasName) ∨
        (e.flag = d.flag ∧ e.aliasName = d.aliasName)) →
      m d.flag = none → m d.aliasName = none →
      (checkForValuesList m l).2 d.flag = none ∧
      (checkForValuesList m l).2 d.aliasName = none := by
  intro l
  induction l with
  | nil => intro m _ hf ha; exact ⟨hf, ha⟩
  | cons e rest ih =>
    intro m hsep hf ha
    rw [checkForValuesList]
    rcases hsep e (List.mem_cons_self e rest) with havoid | heq
    · cases hstep : checkForValuesStep m e with
      | mk o m1 =>
        have e1 : m1 d.flag = m d.flag := by
          have hw := cfvStep_write m e d.flag (Ne.symm havoid.1) (Ne.symm havoid.2.2.1)
          rw [hstep] at hw; exact hw
        have e2 : m1 d.aliasName = m d.aliasName := by
          have hw := cfvStep_write m e d.aliasName (Ne.symm havoid.2.1) (Ne.symm havoid.2.2.2)
          rw [hstep] at hw; exact hw
        cases o with
        | some err =>
          dsimp only
          exact ⟨by rw [e1]; exact hf, by rw [e2]; exact ha⟩
        | none =>
          dsimp only
          exact ih m1 (fun e2m he2 => hsep e2m (List.mem_cons_of_mem e he2))
            (by rw [e1]; exact hf) (by rw [e2]; exact ha)
    · have hstep : checkForValuesStep m e = (none, m) :=
        cfvStep_absent m e (by rw [heq.1]; exact hf) (by rw [heq.2]; exact ha)
      rw [hstep]
      dsimp only
      exact ih m (fun e2m he2 => hsep e2m (List.mem_cons_of_mem e he2)) hf ha

theorem checkForMissingIn_ne_of (m : Store) :
    ∀ (l : List Argument) (a : Argument), a ∈ l → m a.flag = none → m a.aliasName = none →
      checkForMissingIn m l ≠ "" := by
  intro l
  induction l with
  | nil => intro a h; cases h
  | cons e rest ih =>
    intro a hmem hf ha
    rw [checkForMissingIn]
    split_ifs with hcond hflag
    · exact strAppendLeftNeEmpty _ _ (by decide)
    · exact strAppendLeftNeEmpty _ _ (by decide)
    · rcases List.mem_cons.mp hmem with he | hm
      · subst he
        exact absurd ⟨by rw [hf]; rfl, by rw [ha]; rfl⟩ hcond
      · exact ih a hm hf ha

theorem checkForMissingIn_shape (m : Store) :
    ∀ (l : List Argument), checkForMissingIn m l ≠ "" →
      ∃ a, a ∈ l ∧ m a.flag = none ∧ m a.aliasName = none ∧
        checkForMissingIn m l =
          "Must specify " ++ (if a.flag ≠ "" then a.flag else a.aliasName) := by
  intro l
  induction l with
  | nil => intro h; exact absurd rfl h
  | cons e rest ih =>
    intro h
    rw [checkForMissingIn] at h ⊢
    split_ifs at h ⊢ with hcond hflag
    · exact ⟨e, List.mem_cons_self e rest, Option.isNone_iff_eq_none.mp hcond.1,
        Option.isNone_iff_eq_none.mp hcond.2, by rw [if_pos hflag]⟩
    · exact ⟨e, List.mem_cons_self e rest, Option.isNone_iff_eq_none.mp hcond.1,
        Option.isNone_iff_eq_none.mp hcond.2, by rw [if_neg hflag]⟩
    · rcases ih h with ⟨a, hmem, haf, haa, heq⟩
      exact ⟨a, List.mem_cons_of_mem e hmem, haf, haa, heq⟩

theorem Parse_parts (s : Args) (b : String) (toks : List String) (e : Option String)
    (m0 : Store) (nf : List String)
    (hL : scanLoop s (s.required.length + s.optional.length) toks
            s.arguments s.nonflags 0 false = (e, m0, nf)) :
    (s.Parse b toks).1 =
      (match e with
       | some msg => msg
       | none =>
         if nonflagsCheck s.nonflagsRequired nf.length ≠ "" then
           nonflagsCheck s.nonflagsRequired nf.length
         else if (checkForValuesList m0 s.required).1 ≠ "" then
           (checkForValuesList m0 s.required).1
         else if (checkForValuesList (checkForValuesList m0 s.required).2 s.optional).1 ≠ "" then
           (checkForValuesList (checkForValuesList m0 s.required).2 s.optional).1
         else
           checkForMissingIn
             (checkForValuesList (checkForValuesList m0 s.required).2 s.optional).2
             s.required) := by
  cases e with
  | some msg => simp only [Args.Parse, hL]
  | none =>
    simp only [Args.Parse, hL, Args.CheckForValues, Args.CheckForMissing]
    split_ifs <;> rfl


/-- C7 (amended): if a required declaration has neither spelling in the
post-scan store (and no other declaration reuses its names), the parse
returns a non-empty diagnostic; and whenever the missing-required check
itself reports, its message is `"Must specify X"` where `X` is the
primary name — or the alias when the primary is empty — of a required
declaration with neither spelling present.  An earlier validation
failure's message takes precedence over the missing-required one. -/
theorem c7_amended (s : Args) (b : String) (toks : List String) (d : Argument)
    (hmem : d ∈ s.required)
    (hsep : ∀ e ∈ s.required ++ s.optional,
      (e.flag ≠ d.flag ∧ e.flag ≠ d.aliasName ∧
       e.aliasName ≠ d.flag ∧ e.aliasName ≠ d.aliasName) ∨
      (e.flag = d.flag ∧ e.aliasName = d.aliasName))
    (hf : (scanLoop s (s.required.length + s.optional.length) toks
            s.arguments s.nonflags 0 false).2.1 d.flag = none)
    (ha : (scanLoop s (s.required.length + s.optional.length) toks
            s.arguments s.nonflags 0 false).2.1 d.aliasName = none) :
    (s.Parse b toks).1 ≠ "" ∧
    (∀ (m : Store) (l : List Argument), checkForMissingIn m l ≠ "" →
      ∃ a, a ∈ l ∧ m a.flag = none ∧ m a.aliasName = none ∧
        checkForMissingIn m l =
          "Must specify " ++ (if a.flag ≠ "" then a.flag else a.aliasName)) := by
  refine ⟨?_, fun m l => checkForMissingIn_shape m l⟩
  rcases hL : scanLoop s (s.required.length + s.optional.length) toks
      s.arguments s.nonflags 0 false with ⟨e, m0, nf⟩
  rw [hL] at hf ha
  simp only at hf ha
  rw [Parse_parts s b toks e m0 nf hL]
  cases e with
  | some msg => exact scanLoop_err s _ toks _ _ 0 false msg m0 nf hL
  | none =>
    dsimp only
    by_cases h1 : nonflagsCheck s.nonflagsRequired nf.length ≠ ""
    · rw [if_pos h1]; exact h1
    · rw [if_neg h1]
      by_cases h2 : (checkForValuesList m0 s.required).1 ≠ ""
      · rw [if_pos h2]; exact h2
      · rw [if_neg h2]
        by_cases h3 :
            (checkForValuesList (checkForValuesList m0 s.required).2 s.optional).1 ≠ ""
        · rw [if_pos h3]; exact h3
        · rw [if_neg h3]
          have p1 := cfvList_preserve d s.required m0
            (fun e2m he2 => hsep e2m (List.mem_append_left _ he2)) hf ha
          have p2 := cfvList_preserve d s.optional _
            (fun e2m he2 => hsep e2m (List.mem_append_right _ he2)) p1.1 p1.2
          exact checkForMissingIn_ne_of _ s.required d hmem p2.1 p2.2

/-- Witness for C7 (amended): required `--r` absent from empty input
yields a non-empty parse diagnostic. -/
theorem c7_witness : (c7RArgs.Parse "prog" []).1 ≠ "" :=
  (c7_amended c7RArgs "prog" [] ⟨"--r", "", "", "", false⟩ (by decide) (by decide)
    (by decide) (by decide)).1


theorem isalpha_not_blank (c : Char) (h : isalphaChar c = true) : isblankChar c = false := by
  by_contra hb
  have hb2 : isblankChar c = true := by
    cases hx : isblankChar c
    · exact absurd hx hb
    · rfl
  rw [isblankChar] at hb2
  simp at hb2
  rcases hb2 with h1 | h1 <;> rw [h1] at h <;> exact absurd h (by decide)

theorem detNumLoop_spec (cs : List Char) :
    ∀ (l loc : Nat), detNumLoop cs l = some loc →
      loc ≤ l ∧ ∀ j, loc < j → j ≤ l →
        ∃ c, cs[j]? = some c ∧ isalphaChar c = true := by
  intro l
  induction l with
  | zero =>
    intro loc h
    rw [detNumLoop] at h
    cases h0 : cs[0]? with
    | none => rw [h0] at h; exact absurd h (by simp)
    | some c =>
      rw [h0] at h
      dsimp only at h
      have hl : loc = 0 := ((Option.some.injEq _ _).mp h).symm
      subst hl
      exact ⟨Nat.le_refl 0, fun j hj1 hj2 => absurd hj1 (by omega)⟩
  | succ l ih =>
    intro loc h
    rw [detNumLoop] at h
    cases h0 : cs[l + 1]? with
    | none => rw [h0] at h; exact absurd h (by simp)
    | some c =>
      rw [h0] at h
      dsimp only at h
      by_cases hal : isalphaChar c = true
      · rw [if_pos hal] at h
        obtain ⟨hle, halpha⟩ := ih loc h
        refine ⟨Nat.le_succ_of_le hle, fun j hj1 hj2 => ?_⟩
        by_cases hj : j ≤ l
        · exact halpha j hj1 hj
        · have hje : j = l + 1 := by omega
          subst hje
          exact ⟨c, h0, hal⟩
      · rw [if_neg hal] at h
        have hl : loc = l + 1 := ((Option.some.injEq _ _).mp h).symm
        subst hl
        exact ⟨Nat.le_refl _, fun j hj1 hj2 => absurd hj1 (by omega)⟩

theorem DNCW_spec (w : Nat) (win : List Char) (t : Nat)
    (h : DetermineNumCharsToWrite w win = some t) :
    1 ≤ w ∧ 1 ≤ t ∧ (w ≤ t ∨ ∀ j, t ≤ j → j ≤ w - 1 →
      ∃ c, win[j]? = some c ∧ isalphaChar c = true) := by
  rw [DetermineNumCharsToWrite] at h
  by_cases hw : w = 0
  · rw [if_pos hw] at h; exact absurd h (by simp)
  · rw [if_neg hw] at h
    refine ⟨Nat.one_le_iff_ne_zero.mpr hw, ?_⟩
    cases hd : detNumLoop win (w - 1) with
    | none => rw [hd] at h; exact absurd h (by simp)
    | some loc =>
      rw [hd] at h
      dsimp only at h
      obtain ⟨hle, halpha⟩ := detNumLoop_spec win (w - 1) loc hd
      by_cases hl0 : loc = 0
      · rw [if_pos hl0] at h
        cases h0 : win[0]? with
        | none => rw [h0] at h; exact absurd h (by simp)
        | some c =>
          rw [h0] at h
          dsimp only at h
          by_cases hal : isalphaChar c = true
          · rw [if_pos hal] at h
            have ht : t = w := ((Option.some.injEq _ _).mp h).symm
            subst ht
            exact ⟨Nat.one_le_iff_ne_zero.mpr hw, Or.inl (Nat.le_refl _)⟩
          · rw [if_neg hal] at h
            have ht : t = loc + 1 := ((Option.some.injEq _ _).mp h).symm
            subst ht
            exact ⟨by omega, Or.inr fun j hj1 hj2 => halpha j (by omega) hj2⟩
      · rw [if_neg hl0] at h
        have ht : t = loc + 1 := ((Option.some.injEq _ _).mp h).symm
        subst ht
        exact ⟨by omega, Or.inr fun j hj1 hj2 => halpha j (by omega) hj2⟩

theorem finalBlock_ne_hang (desc : List Char) (w count : Nat) (acc : List Char)
    (hsafe : w ≤ count ∨ desc.length ≤ count ∨
      (∃ c, desc[count]? = some c ∧ isalphaChar c = true)) :
    finalBlock desc w count acc ≠ FDResult.hang := by
  rw [finalBlock]
  by_cases hce : count = desc.length
  · rw [if_pos hce]
    dsimp only
    have hcond : ¬(isblankChar '\x00' = true ∧ count < w) := fun hx => absurd hx.1 (by decide)
    rw [if_neg hcond]
    split_ifs <;> simp
  · rw [if_neg hce]
    rcases hsafe with hwc | hlen | ⟨c, hc, hal⟩
    · cases h0 : desc[count]? with
      | none => simp
      | some c =>
        dsimp only
        have hcond : ¬(isblankChar c = true ∧ count < w) := fun hx => absurd hx.2 (by omega)
        rw [if_neg hcond]
        split_ifs <;> simp
    · have h0 : desc[count]? = none := List.getElem?_eq_none (by omega)
      rw [h0]; simp
    · rw [hc]
      dsimp only
      have hcond : ¬(isblankChar c = true ∧ count < w) := fun hx => by
        rw [isalpha_not_blank c hal] at hx
        exact absurd hx.1 (by simp)
      rw [if_neg hcond]
      split_ifs <;> simp

theorem fdLoop_ne_hang (desc : List Char) (w start : Nat) :
    ∀ (fuel count : Nat) (acc : List Char),
      desc.length - w + 1 ≤ count + fuel →
      (count < desc.length - w ∨ (w ≤ count ∨ desc.length ≤ count ∨
        (∃ c, desc[count]? = some c ∧ isalphaChar c = true))) →
      fdLoop desc w start fuel count acc ≠ FDResult.hang := by
  intro fuel
  induction fuel with
  | zero =>
    intro count acc hfuel hsafe
    rw [fdLoop]
    have hnc : ¬(count < desc.length - w) := by omega
    rw [if_neg hnc]
    rcases hsafe with h | h
    · exact absurd h hnc
    · exact finalBlock_ne_hang desc w count acc h
  | succ fuel ih =>
    intro count acc hfuel hsafe
    rw [fdLoop]
    by_cases hc : count < desc.length - w
    · rw [if_pos hc]
      cases hD : DetermineNumCharsToWrite w (desc.drop count) with
      | none => simp
      | some toWrite =>
        cases hS : skipCount w (desc.drop count) 0 with
        | none => simp
        | some skip =>
          obtain ⟨hw1, ht1, halt⟩ := DNCW_spec w (desc.drop count) toWrite hD
          dsimp only
          by_cases hsk : skip = w
          · rw [if_pos hsk]
            exact ih (count + skip) acc (by omega) (Or.inr (Or.inl (by omega)))
          · rw [if_neg hsk]
            apply ih (count + skip + toWrite) _ (by omega)
            by_cases h1 : count + skip + toWrite < desc.length - w
            · exact Or.inl h1
            · by_cases h2 : w ≤ count + skip + toWrite
              · exact Or.inr (Or.inl h2)
              · rcases halt with hwt | halt
                · omega
                · obtain ⟨c, hc2, hal⟩ := halt (skip + toWrite) (by omega) (by omega)
                  rw [List.getElem?_drop] at hc2
                  rw [show count + (skip + toWrite) = count + skip + toWrite by omega] at hc2
                  exact Or.inr (Or.inr (Or.inr ⟨c, hc2, hal⟩))
    · rw [if_neg hc]
      rcases hsafe with h | h
      · exact absurd h hc
      · exact finalBlock_ne_hang desc w count acc h

/-- C10 (amended): the word-wrapping routine never fails to terminate:
for every description, wrap width and start column the final
blank-skipping loop is never entered (after each emitted line the next
in-bounds character is non-blank, or the position is at or past the
wrap width), and the main loop's iteration count is bounded by the
description length.  (It does not, however, return a string for every
input: see the counterexample, where an out-of-bounds read occurs.) -/
theorem c10_no_hang (w start : Nat) (description : String) :
    FormatDescription w start description ≠ FDResult.hang := by
  rw [FormatDescription]
  by_cases h : description.length ≤ w
  · rw [if_pos h]; simp
  · rw [if_neg h]
    have hlen : description.length = description.data.length := rfl
    exact fdLoop_ne_hang description.data w start (description.data.length + 1) 0 []
      (by omega) (Or.inl (by omega))

end Sargs
